import Mathlib

/-
Verification development for the maldi_dep deposition simulator and stride
optimizer.  The Python source is shallowly embedded: machine floats are
idealized as rationals, numpy arrays become Lean lists or total functions,
and in-place mutation becomes explicit state passing.  Each definition is a
direct translation of the function named in its doc comment.
-/

set_option autoImplicit false

/-- Python `int(q)` on a float: truncation toward zero.  On a normalized
rational this is the T-division (`Int.tdiv`) of the numerator by the
denominator. -/
def ratTrunc (q : ℚ) : ℤ := Int.tdiv q.num (q.den : ℤ)

/-- Embedding of `numpy.linspace(a, b, n)`: `n` evenly spaced samples whose
first element is `a` and whose last element is `b`; `linspace(a, b, 1) = [a]`. -/
def linspaceQ (a b : ℚ) (n : ℕ) : List ℚ :=
  if n = 0 then []
  else if n = 1 then [a]
  else (List.range n).map (fun (i : ℕ) => a + (b - a) * (i : ℚ) / ((n - 1 : ℕ) : ℚ))

/-- Embedding of `simulation.Simulator.Movement`: a dataclass with fields
`x`, `y`, `speed`, `acceleration`. -/
structure Movement where
  x : ℚ
  y : ℚ
  speed : ℚ
  acceleration : ℚ
deriving DecidableEq

instance : Inhabited Movement := ⟨⟨0, 0, 0, 0⟩⟩

/-- Embedding of `Movement(x, y, speed)` followed by `__post_init__`, which
converts each stored field with Python `float(...)` (the identity on real
values; acceleration defaults to `0.0`). -/
def mkMovement (x y speed : ℚ) : Movement := ⟨x, y, speed, 0⟩

/-- Embedding of the `Config.diameter_vs_z` calibration table: height control
points `zs`, diameter control points `ds`, and the additive `z_offset`. -/
structure CalibTable where
  zs : List ℚ
  ds : List ℚ
  zOffset : ℚ

/-- Slope of the degree-1 least-squares fit computed by
`np.polyfit(zs, ds, 1)`: the ordinary-least-squares closed form
`(n·Σzd − Σz·Σd) / (n·Σz² − (Σz)²)`. -/
def olsSlope (zs ds : List ℚ) : ℚ :=
  let n : ℚ := (zs.length : ℚ)
  let sz := zs.sum
  let sd := ds.sum
  let szd := ((zs.zip ds).map (fun p => p.1 * p.2)).sum
  let szz := (zs.map (fun z => z * z)).sum
  (n * szd - sz * sd) / (n * szz - sz * sz)

/-- Intercept of the degree-1 least-squares fit computed by
`np.polyfit(zs, ds, 1)`: `(Σd − slope·Σz) / n`. -/
def olsIntercept (zs ds : List ℚ) : ℚ :=
  (ds.sum - olsSlope zs ds * zs.sum) / (zs.length : ℚ)

/-- Embedding of `Config._get_diameter_for_z`: `diameter` starts at `0.0`; if
both control lists are non-empty, a linear fit is evaluated at
`z + z_offset`. -/
def getDiameterForZ (tbl : CalibTable) (z : ℚ) : ℚ :=
  let zshift := z + tbl.zOffset
  if tbl.zs = [] ∨ tbl.ds = [] then 0
  else olsSlope tbl.zs tbl.ds * zshift + olsIntercept tbl.zs tbl.ds

/-- Embedding of the kernel-diameter selection in `Nozzle.__init__` (lines
26-31):  `diameter_mm = Config()._get_diameter_for_z(z)` and, when that value
is non-positive, the fallback `diameter_mm = max(self.step * 3.0, 1.0)`. -/
def nozzleKernelDiameter (tbl : CalibTable) (step z : ℚ) : ℚ :=
  let d := getDiameterForZ tbl z
  if d ≤ 0 then max (step * 3) 1 else d

/-- Embedding of `meshing.utils.shift` with `order=1`, `mode='constant'`,
`cval=0`: the output at integer index `(i, j)` is the bilinear sample of the
input at `(i - dy, j - dx)`, where the input is extended by `0` outside its
support (the function `f` is the zero-extended input array). -/
def globalShiftQ (f : ℤ → ℤ → ℚ) (dy dx : ℚ) (i j : ℤ) : ℚ :=
  let y : ℚ := (i : ℚ) - dy
  let x : ℚ := (j : ℚ) - dx
  let y0 : ℤ := ⌊y⌋
  let x0 : ℤ := ⌊x⌋
  let wy : ℚ := y - (y0 : ℚ)
  let wx : ℚ := x - (x0 : ℚ)
  (1 - wy) * (1 - wx) * f y0 x0 + (1 - wy) * wx * f y0 (x0 + 1) +
    wy * (1 - wx) * f (y0 + 1) x0 + wy * wx * f (y0 + 1) (x0 + 1)

/-- Static data of a `BedMesh` as seen by `SprayMask.apply`: deposition array
shape `H × W`, grid step, kernel radius in cells (`SprayMask._radius_cells`)
and the zero-extended kernel tile built in `SprayMask.__init__`. -/
structure BedCfg where
  H : ℤ
  W : ℤ
  r : ℤ
  step : ℚ
  tile : ℤ → ℤ → ℚ

/-- Sub-pixel-shifted kernel tile of `SprayMask.apply`: the fractional parts
`fy = uy - floor(uy)`, `fx = ux - floor(ux)` of the cell offset are applied to
the kernel with `shift(self.mask, offset=(fy, fx), ...)`. -/
def sprayShiftAt (cfg : BedCfg) (pos : ℚ × ℚ) (a b : ℤ) : ℚ :=
  let ux := pos.1 / cfg.step
  let uy := pos.2 / cfg.step
  globalShiftQ cfg.tile (uy - (⌊uy⌋ : ℚ)) (ux - (⌊ux⌋ : ℚ)) a b

/-- Window bound `bed_y0 = max(0, jy - r)` of `SprayMask.apply`. -/
def sprayWindowY0 (cfg : BedCfg) (pos : ℚ × ℚ) : ℤ :=
  max 0 (⌊pos.2 / cfg.step⌋ - cfg.r)

/-- Window bound `bed_y1 = min(H, jy + r + 1)` of `SprayMask.apply`. -/
def sprayWindowY1 (cfg : BedCfg) (pos : ℚ × ℚ) : ℤ :=
  min cfg.H (⌊pos.2 / cfg.step⌋ + cfg.r + 1)

/-- Window bound `bed_x0 = max(0, jx - r)` of `SprayMask.apply`. -/
def sprayWindowX0 (cfg : BedCfg) (pos : ℚ × ℚ) : ℤ :=
  max 0 (⌊pos.1 / cfg.step⌋ - cfg.r)

/-- Window bound `bed_x1 = min(W, jx + r + 1)` of `SprayMask.apply`. -/
def sprayWindowX1 (cfg : BedCfg) (pos : ℚ × ℚ) : ℤ :=
  min cfg.W (⌊pos.1 / cfg.step⌋ + cfg.r + 1)

/-- Kernel-window origin `ker_y0 = r - (jy - bed_y0)` of `SprayMask.apply`. -/
def sprayKerY0 (cfg : BedCfg) (pos : ℚ × ℚ) : ℤ :=
  cfg.r - (⌊pos.2 / cfg.step⌋ - sprayWindowY0 cfg pos)

/-- Kernel-window origin `ker_x0 = r - (jx - bed_x0)` of `SprayMask.apply`. -/
def sprayKerX0 (cfg : BedCfg) (pos : ℚ × ℚ) : ℤ :=
  cfg.r - (⌊pos.1 / cfg.step⌋ - sprayWindowX0 cfg pos)

/-- Embedding of `SprayMask.apply` on a `BedMesh` target with
`mask_anchor = (0, 0)` (the only anchor `Nozzle.spray` uses): the kernel tile
is sub-pixel shifted, scaled by `time` only when `time > 0`, and added into
the clipped window `[bed_y0, bed_y1) × [bed_x0, bed_x1)` of the deposition
array; scaling a tile and then slicing it equals scaling each sliced entry. -/
def applySprayDep (cfg : BedCfg) (dep : ℤ → ℤ → ℚ) (pos : ℚ × ℚ) (t : ℚ) :
    ℤ → ℤ → ℚ :=
  fun i j =>
    if sprayWindowY0 cfg pos ≤ i ∧ i < sprayWindowY1 cfg pos ∧
        sprayWindowX0 cfg pos ≤ j ∧ j < sprayWindowX1 cfg pos then
      dep i j +
        (if 0 < t then
          t * sprayShiftAt cfg pos (sprayKerY0 cfg pos + (i - sprayWindowY0 cfg pos))
              (sprayKerX0 cfg pos + (j - sprayWindowX0 cfg pos))
        else
          sprayShiftAt cfg pos (sprayKerY0 cfg pos + (i - sprayWindowY0 cfg pos))
            (sprayKerX0 cfg pos + (j - sprayWindowX0 cfg pos)))
    else dep i j

/-- One `nozzle.spray(apply_position, time)` call per recorded event,
applied in order: each event is a pair of a position and a duration. -/
def applyEvents (cfg : BedCfg) (dep : ℤ → ℤ → ℚ) (evs : List ((ℚ × ℚ) × ℚ)) :
    ℤ → ℤ → ℚ :=
  evs.foldl (fun d e => applySprayDep cfg d e.1 e.2) dep

/-- Embedding of the sub-step count chosen in `Scheduler.start` (lines
109-111) combined with `max(1, ...)` from the `np.linspace` call:
`int(distance/step) if int(distance/step) > self.min_time_step else
int(distance/self.min_time_step)`, a comparison of a step count against the
minimum time-step value. -/
def numSubSteps (d step mts : ℚ) : ℕ :=
  (max 1 (if mts < (ratTrunc (d / step) : ℚ) then ratTrunc (d / step)
          else ratTrunc (d / mts))).toNat

/-- Loop state of `Scheduler.start`: current position, current simulated
time, and the ordered list of `(position, duration)` spray events issued so
far (the observable effect of `self.bed._nozzle.spray(...)` calls). -/
structure SchedState where
  pos : ℚ × ℚ
  time : ℚ
  events : List ((ℚ × ℚ) × ℚ)
deriving DecidableEq

/-- One iteration of the inner `for t in time_steps` loop of
`Scheduler.start`: if `time_incr = t - current_time > 0`, advance the
position by the axis speeds, spray with duration `time_incr`, and set the
current time to `t`; otherwise do nothing. -/
def schedStep (xs ys : ℚ) (st : SchedState) (t : ℚ) : SchedState :=
  let incr := t - st.time
  if 0 < incr then
    let p := (st.pos.1 + xs * incr, st.pos.2 + ys * incr)
    ⟨p, t, st.events ++ [(p, incr)]⟩
  else st

/-- The inner `for t in time_steps` loop of `Scheduler.start`. -/
def runTimes (xs ys : ℚ) (st : SchedState) (ts : List ℚ) : SchedState :=
  ts.foldl (schedStep xs ys) st

/-- Embedding of the body of the outer movement loop of `Scheduler.start`
(lines 77-121) for one movement.  The Euclidean distance
`sqrt((x-old_x)² + (y-old_y)²)` is irrational in general, so it is passed in
as the parameter `d`; callers supply the actual distance.  When `d < step`
the nozzle sprays once at the current position with the default duration `0`
and the loop continues; otherwise the travel is subdivided over
`np.linspace(current_time, current_time + duration, max(1, count))`. -/
def processMovement (pos : ℚ × ℚ) (t0 : ℚ) (m : Movement) (d step mts : ℚ) :
    (ℚ × ℚ) × ℚ × List ((ℚ × ℚ) × ℚ) :=
  if d < step then (pos, t0, [(pos, 0)])
  else
    let dur := if m.speed ≠ 0 then d / m.speed else 0
    let xs := if dur = 0 then 0 else (m.x - pos.1) / dur
    let ys := if dur = 0 then 0 else (m.y - pos.2) / dur
    let ts := linspaceQ t0 (t0 + dur) (numSubSteps d step mts)
    let fin := runTimes xs ys ⟨pos, t0, []⟩ ts
    (fin.pos, fin.time, fin.events)

/-- Full state of a `Scheduler` run: the deposition array plus the nozzle
position and simulated time. -/
structure RunState where
  dep : ℤ → ℤ → ℚ
  pos : ℚ × ℚ
  time : ℚ

/-- Embedding of `Scheduler.start` over a whole movement list: the scheduler
starts at position `(0, 0)` and time `0`; for each movement the straight-line
distance is computed by the supplied `distf` (the source uses the Euclidean
distance) and the movement is processed by `processMovement`, with every
issued spray event applied to the deposition array. -/
def schedulerRun (cfg : BedCfg) (distf : ℚ × ℚ → ℚ × ℚ → ℚ) (mts : ℚ)
    (dep0 : ℤ → ℤ → ℚ) (movs : List Movement) : RunState :=
  movs.foldl
    (fun st m =>
      let d := distf st.pos (m.x, m.y)
      let res := processMovement st.pos st.time m d cfg.step mts
      ⟨applyEvents cfg st.dep res.2.2, res.1, res.2.1⟩)
    ⟨dep0, (0, 0), 0⟩

/-- Embedding of the movement-zone computation in
`SquaredSerpentine._compute_serpentines` (lines 60-90): the mask bounding box
is expanded by `margin`, clamped to the bed `[0, size_mm]`, and on a
collapsed axis replaced by the raw bounding box clamped to the bed.  Returns
`(x_left, x_right, y_bottom, y_top)`. -/
def serpZone (bmSize blx bly xsize ysize margin : ℚ) : ℚ × ℚ × ℚ × ℚ :=
  let xMax := blx + xsize
  let yMax := bly + ysize
  let xLeft1 := max 0 (blx - margin)
  let xRight1 := min bmSize (xMax + margin)
  let yBottom1 := max 0 (bly - margin)
  let yTop1 := min bmSize (yMax + margin)
  let xPair := if xRight1 ≤ xLeft1 then (max 0 blx, min bmSize xMax) else (xLeft1, xRight1)
  let yPair := if yTop1 ≤ yBottom1 then (max 0 bly, min bmSize yMax) else (yBottom1, yTop1)
  (xPair.1, xPair.2, yPair.1, yPair.2)

/-- Row count of `SquaredSerpentine._compute_serpentines`:
`y_amnt = max(2, int(height / max(stride, 1e-9)) + 1)` with
`height = abs(y_top - y_bottom)`. -/
def serpRows (yTop yBottom stride : ℚ) : ℕ :=
  (max 2 (ratTrunc (|yTop - yBottom| / max stride (1 / 1000000000)) + 1)).toNat

/-- Single-pass point sequence of `SquaredSerpentine._compute_serpentines`
(lines 96-120): `x_source = linspace(x_left, x_right, max(2, int(x_amnt)))`,
`y_source = linspace(y_top, y_bottom, y_amnt)`,
`y_final = np.repeat(y_source, len(x_source))`, `x_final` concatenates
`x_source` forward on even rows and flipped on odd rows, and the two arrays
are truncated to their common length and stacked as points. -/
def serpPts (xLeft xRight yBottom yTop stride : ℚ) (xamnt : ℤ) :
    List (ℚ × ℚ) :=
  let P := (max 2 xamnt).toNat
  let xSource := linspaceQ xLeft xRight P
  let R := serpRows yTop yBottom stride
  let ySource := linspaceQ yTop yBottom R
  let yFinal := ySource.flatMap (fun y => List.replicate P y)
  let xFinal := (List.range R).flatMap
    (fun c => if c % 2 = 0 then xSource else xSource.reverse)
  let len := min xFinal.length yFinal.length
  (xFinal.take len).zip (yFinal.take len)

/-- Embedding of `SquaredSerpentine._compute_serpentines` (lines 47-140): if
the movement zone is invalid (`x_right ≤ x_left` or `y_top ≤ y_bottom` after
fallback) the movement list is left empty; otherwise the single-pass point
sequence is emitted once per pass, even passes in order and odd passes
reversed, with odd passes adding `stride / 2` to `y` when `alternate_offset`
is set; every point becomes `Movement(x, y, speed=self.speed)`. -/
def computeSerpentines (bmSize blx bly xsize ysize margin : ℚ) (xamnt : ℤ)
    (stride speed : ℚ) (passes : ℕ) (alt : Bool) : List Movement :=
  let z := serpZone bmSize blx bly xsize ysize margin
  let xLeft := z.1
  let xRight := z.2.1
  let yBottom := z.2.2.1
  let yTop := z.2.2.2
  if xLeft < xRight ∧ yBottom < yTop then
    let pts := serpPts xLeft xRight yBottom yTop stride xamnt
    let n := pts.length
    (List.range passes).flatMap
      (fun p =>
        let order := if p % 2 = 0 then List.range n else (List.range n).reverse
        order.map
          (fun i =>
            let yOfs : ℚ := if p % 2 ≠ 0 ∧ alt = true then stride / 2 else 0
            let q := pts.getD i (0, 0)
            mkMovement q.1 (q.2 + yOfs) speed))
  else []

/-- Embedding of a `SquaredSerpentine` instance: the attributes assigned in
`SquaredSerpentine.__init__` (the mask and bed objects are retained only
through the data the path computation reads: the mask bounding box and the
bed size). -/
structure SSerp where
  maskBlx : ℚ
  maskBly : ℚ
  maskXSize : ℚ
  maskYSize : ℚ
  bmSize : ℚ
  margin : ℚ
  xAmnt : ℤ
  stride : ℚ
  speed : ℚ
  maxSpeed : ℚ
  passes : ℕ
  altOffset : Bool
  movements : List Movement

/-- Embedding of `SquaredSerpentine.set_stride`: store the new stride and
recompute the movement list with `_compute_serpentines`. -/
def setStride (sp : SSerp) (s : ℚ) : SSerp :=
  { sp with
    stride := s
    movements := computeSerpentines sp.bmSize sp.maskBlx sp.maskBly sp.maskXSize
      sp.maskYSize sp.margin sp.xAmnt s sp.speed sp.passes sp.altOffset }

/-- Python attribute values readable from a `SquaredSerpentine` object. -/
inductive PyVal where
  | obj : PyVal
  | num : ℚ → PyVal
  | int : ℤ → PyVal
  | nat : ℕ → PyVal
  | bool : Bool → PyVal
  | movs : List Movement → PyVal

/-- The attribute name `"serpentines"` read by `Optimizer._sim_routine`. -/
def attrSerpentines : String := "serpentines"

/-- Python attribute lookup on a `SquaredSerpentine` instance: exactly the
attribute names assigned in `SquaredSerpentine.__init__` resolve; any other
name yields `none` (an `AttributeError` at the access site). -/
def SSerp.pyattr (sp : SSerp) (name : String) : Option PyVal :=
  if name = "mask" then some PyVal.obj
  else if name = "bm" then some PyVal.obj
  else if name = "margin" then some (PyVal.num sp.margin)
  else if name = "x_amnt" then some (PyVal.int sp.xAmnt)
  else if name = "stride" then some (PyVal.num sp.stride)
  else if name = "movements" then some (PyVal.movs sp.movements)
  else if name = "passes" then some (PyVal.nat sp.passes)
  else if name = "speed" then some (PyVal.num sp.speed)
  else if name = "max_speed" then some (PyVal.num sp.maxSpeed)
  else if name = "alternate_offset" then some (PyVal.bool sp.altOffset)
  else none

/-- Errors that abort a simulation sweep. -/
inductive SimError where
  | attributeError : String → SimError
  | typeError : SimError
deriving DecidableEq

/-- Embedding of the movement-gathering loop of `Optimizer._sim_routine`
(lines 21-23): `movements.extend(serp.serpentines)` for each serpentine;
the attribute access is resolved through `SSerp.pyattr`. -/
def simRoutineGather : List SSerp → Except SimError (List Movement)
  | [] => Except.ok []
  | sp :: rest =>
    match sp.pyattr attrSerpentines with
    | none => Except.error (SimError.attributeError attrSerpentines)
    | some (PyVal.movs l) => (simRoutineGather rest).map (fun acc => l ++ acc)
    | some _ => Except.error SimError.typeError

/-- Embedding of `BedMesh.clear_deposition_mesh`: `deposition_mesh.fill(0)`. -/
def clearDep (_dep : ℤ → ℤ → ℚ) : ℤ → ℤ → ℚ := fun _ _ => 0

/-- Embedding of the per-stride sweep loop of `Optimizer.span_std_vs_stride`
(lines 66-76) with `reset_mesh_each = True`: for each candidate stride, set
the stride on every serpentine, clear the deposition mesh, run
`_sim_routine` (gather movements, then run the scheduler), and record the
per-region deviations computed by the collaborator `devf`
(`BedMesh.get_std_deviation`).  A raised error aborts the sweep, returning
the deposition state at the moment of the error. -/
def spanRun (cfg : BedCfg) (distf : ℚ × ℚ → ℚ × ℚ → ℚ)
    (devf : (ℤ → ℤ → ℚ) → List ℚ) (mts : ℚ) :
    List SSerp → (ℤ → ℤ → ℚ) → List ℚ →
      Option SimError × (ℤ → ℤ → ℚ) × List (ℚ × List ℚ)
  | _, dep, [] => (none, dep, [])
  | serps, dep, s :: rest =>
    let serps2 := serps.map (fun sp => setStride sp s)
    let dep1 := clearDep dep
    match simRoutineGather serps2 with
    | Except.error e => (some e, dep1, [])
    | Except.ok movs =>
      let st := schedulerRun cfg distf mts dep1 movs
      let devs := devf st.dep
      let res := spanRun cfg distf devf mts serps2 st.dep rest
      (res.1, res.2.1, (s, devs) :: res.2.2)


/-- Rectangle request passed to `BedMesh.add_bool_mask`: one row
`[x_min, x_max, y_min, y_max]` of the `points` argument. -/
structure RectPts where
  x1 : ℚ
  x2 : ℚ
  y1 : ℚ
  y2 : ℚ
deriving DecidableEq

/-- Parameters persisted on a `SampleMask`: bottom-left corner and footprint
size (`bl_corner`, `x_size`, `y_size`). -/
structure SampleMaskRec where
  blx : ℚ
  bly : ℚ
  xsize : ℚ
  ysize : ℚ
deriving DecidableEq

/-- Grid coordinate of cell index `k`: entry `k` of
`np.linspace(0, size_mm, steps_count)` built in `Mask.__init__` and
`BedMesh.__init__`. -/
def maskCoord (size : ℚ) (sc : ℕ) (k : ℕ) : ℚ := (linspaceQ 0 size sc).getD k 0

/-- Embedding of `meshing.utils.boolean_function` at cell `(i, j)` of the
coordinate mesh (with `indexing="xy"`, `x` varies along `j` and `y` along
`i`): inclusive on the bottom-left edges, exclusive on the top-right edges. -/
def sampleMaskAt (size : ℚ) (sc : ℕ) (m : SampleMaskRec) (i j : ℕ) : Bool :=
  let x := maskCoord size sc j
  let y := maskCoord size sc i
  decide (m.blx ≤ x ∧ x < m.blx + m.xsize ∧ m.bly ≤ y ∧ y < m.bly + m.ysize)

/-- The `SampleMask` boolean tile viewed as a zero-extended numeric array,
as consumed by `meshing.utils.shift`. -/
def sampleMaskQ (size : ℚ) (sc : ℕ) (m : SampleMaskRec) (a b : ℤ) : ℚ :=
  if 0 ≤ a ∧ a < (sc : ℤ) ∧ 0 ≤ b ∧ b < (sc : ℤ) then
    (if sampleMaskAt size sc m a.toNat b.toNat then 1 else 0)
  else 0

/-- Embedding of `SampleMask.apply` on a `BedMesh` target: the boolean tile
is shifted by `((y_t - y_a)/step, (x_t - x_a)/step)` cells with the bilinear
`shift`, cast back to booleans (non-zero means `True`), and combined into the
target boolean layer with `np.logical_or`. -/
def sampleMaskApplyMesh (size : ℚ) (sc : ℕ) (m : SampleMaskRec) (dy dx : ℚ)
    (tgt : ℕ → ℕ → Bool) : ℕ → ℕ → Bool :=
  fun i j =>
    tgt i j ||
      (if globalShiftQ (sampleMaskQ size sc m) dy dx (i : ℤ) (j : ℤ) = 0 then false
       else true)

/-- Boolean-layer state of a `BedMesh`: the `bool_mesh` array and the
`_bool_masks` registry. -/
structure BedBoolState where
  boolMesh : ℕ → ℕ → Bool
  registry : List SampleMaskRec

/-- Embedding of `BedMesh.add_bool_mask` with `shape="rectangle"` (lines
66-81): the loop body builds a `SampleMask` for the current row of `points`,
composites it at offset `(0 - 0)/step = 0`, appends it to the registry and
then executes `return mask`, so only the first rectangle is ever processed;
an empty `points` list falls through the loop and returns `None`. -/
def addBoolMask (size : ℚ) (sc : ℕ) (st : BedBoolState) (rects : List RectPts) :
    Option (BedBoolState × SampleMaskRec) :=
  match rects with
  | [] => none
  | r :: _ =>
    let m : SampleMaskRec := ⟨r.x1, r.y1, r.x2 - r.x1, r.y2 - r.y1⟩
    let mesh2 := sampleMaskApplyMesh size sc m 0 0 st.boolMesh
    some (⟨mesh2, st.registry ++ [m]⟩, m)

/-- Embedding of `np.mean` on a list of reals: sum divided by length. -/
def meanQ (l : List ℚ) : ℚ := l.sum / (l.length : ℚ)

/-- Running minimum `foldl(min, d, l)`, the minimum of `d :: l`. -/
def minD (l : List ℚ) (d : ℚ) : ℚ := l.foldl min d

/-- Embedding of `np.argmin`: index of the first occurrence of the minimum
value (`0` on an empty list, matching no meaningful call). -/
def argminFirst : List ℚ → ℕ
  | [] => 0
  | [_] => 0
  | x :: y :: rest => if x ≤ minD rest y then 0 else argminFirst (y :: rest) + 1

/-- Embedding of the best-stride selection in `MaldiStatus.optimize_strides`
(lines 159-162): `series` is `optimizer.dev_vs_stride`, a list of
`(stride, [per-region deviations])` pairs in the caller's stride order; the
per-candidate scalar is `np.mean(devs)` and the winner is the stride at
`np.argmin` of those scalars. -/
def optimizeStrideSelect (series : List (ℚ × List ℚ)) : ℚ :=
  let means := series.map (fun p => meanQ p.2)
  let bestIdx := argminFirst means
  (series.getD bestIdx (0, [])).1

/-- Embedding of `self.dev_vs_stride = list(zip(map(float, strides_arr),
devs))` from `Optimizer.span_std_vs_stride` (line 81): the deviation series
is keyed in the caller-supplied stride order. -/
def devVsStride (strides : List ℚ) (devs : List (List ℚ)) : List (ℚ × List ℚ) :=
  strides.zip devs

/-! ### Generic list helpers -/

theorem linspaceQ_length (a b : ℚ) (n : ℕ) : (linspaceQ a b n).length = n := by
  unfold linspaceQ
  split
  · simp [*]
  · split
    · simp [*]
    · rw [List.length_map, List.length_range]

theorem linspaceQ_succ_succ (a b : ℚ) (m : ℕ) :
    linspaceQ a b (m + 2) =
      a :: (List.range (m + 1)).map
        (fun (i : ℕ) => a + (b - a) * ((i : ℚ) + 1) / ((m + 1 : ℕ) : ℚ)) := by
  unfold linspaceQ
  rw [if_neg (by omega), if_neg (by omega)]
  have hsub : (m + 2 - 1 : ℕ) = m + 1 := by omega
  rw [hsub, List.range_succ_eq_map]
  simp only [List.map_cons, List.map_map]
  refine congrArg₂ _ (by push_cast; ring) ?_
  refine List.map_congr_left ?_
  intro i _
  simp only [Function.comp_apply, Nat.succ_eq_add_one]
  push_cast
  ring

theorem flatMap_length_uniform {α β : Type} (f : α → List β) (k : ℕ) :
    ∀ (l : List α), (∀ a ∈ l, (f a).length = k) →
      (l.flatMap f).length = l.length * k := by
  intro l
  induction l with
  | nil => intro _; simp
  | cons a as ih =>
    intro h
    simp only [List.flatMap_cons, List.length_append, List.length_cons]
    rw [h a (List.mem_cons_self a as), ih (fun x hx => h x (List.mem_cons_of_mem a hx))]
    ring

theorem flatMap_getD_uniform {α β : Type} (f : α → List β) (k : ℕ) (d : β) (da : α) :
    ∀ (l : List α), (∀ a ∈ l, (f a).length = k) →
      ∀ i j : ℕ, i < l.length → j < k →
        (l.flatMap f).getD (i * k + j) d = (f (l.getD i da)).getD j d := by
  intro l
  induction l with
  | nil =>
    intro _ i j hi _
    exact absurd hi (Nat.not_lt_zero i)
  | cons a as ih =>
    intro hlen i j hi hj
    have hfa : (f a).length = k := hlen a (List.mem_cons_self a as)
    cases i with
    | zero =>
      simp only [List.flatMap_cons, Nat.zero_mul, Nat.zero_add, List.getD_cons_zero]
      exact List.getD_append _ _ _ _ (by rw [hfa]; exact hj)
    | succ i2 =>
      have hidx : (i2 + 1) * k + j = (f a).length + (i2 * k + j) := by
        rw [hfa]; ring
      rw [List.flatMap_cons, hidx, List.getD_cons_succ,
        List.getD_append_right _ _ _ _ (Nat.le_add_right _ _), Nat.add_sub_cancel_left]
      exact ih (fun x hx => hlen x (List.mem_cons_of_mem a hx)) i2 j
        (Nat.lt_of_succ_lt_succ hi) hj

theorem zip_getD {α β : Type} (l1 : List α) (l2 : List β) (i : ℕ) (d1 : α) (d2 : β)
    (h1 : i < l1.length) (h2 : i < l2.length) :
    (l1.zip l2).getD i (d1, d2) = (l1.getD i d1, l2.getD i d2) := by
  have hz : i < (l1.zip l2).length := by
    rw [List.length_zip]; exact lt_min h1 h2
  rw [List.getD_eq_getElem _ _ hz, List.getD_eq_getElem _ _ h1,
    List.getD_eq_getElem _ _ h2, List.getElem_zip]

theorem map_getD {α β : Type} (g : α → β) (l : List α) (i : ℕ) (d : β) (da : α)
    (h : i < l.length) : (l.map g).getD i d = g (l.getD i da) := by
  have hm : i < (l.map g).length := by rw [List.length_map]; exact h
  rw [List.getD_eq_getElem _ _ hm, List.getD_eq_getElem _ _ h, List.getElem_map]

theorem reverse_getD {α : Type} (l : List α) (j : ℕ) (d : α) (h : j < l.length) :
    l.reverse.getD j d = l.getD (l.length - 1 - j) d := by
  have hr : j < l.reverse.length := by rw [List.length_reverse]; exact h
  have hl : l.length - 1 - j < l.length := by omega
  rw [List.getD_eq_getElem _ _ hr, List.getD_eq_getElem _ _ hl, List.getElem_reverse]

theorem range_getD (n i : ℕ) (h : i < n) : (List.range n).getD i 0 = i := by
  have hr : i < (List.range n).length := by rw [List.length_range]; exact h
  rw [List.getD_eq_getElem _ _ hr, List.getElem_range]

theorem replicate_getD {α : Type} (k : ℕ) (y : α) (j : ℕ) (d : α) (h : j < k) :
    (List.replicate k y).getD j d = y := by
  have hr : j < (List.replicate k y).length := by rw [List.length_replicate]; exact h
  rw [List.getD_eq_getElem _ _ hr, List.getElem_replicate]

/-! ### Scheduler inner-loop lemmas -/

theorem runTimes_nil (xs ys : ℚ) (st : SchedState) : runTimes xs ys st [] = st := rfl

theorem runTimes_cons (xs ys : ℚ) (st : SchedState) (t : ℚ) (ts : List ℚ) :
    runTimes xs ys st (t :: ts) = runTimes xs ys (schedStep xs ys st t) ts := rfl

theorem schedStep_of_le (xs ys : ℚ) (st : SchedState) (t : ℚ) (h : t ≤ st.time) :
    schedStep xs ys st t = st := by
  unfold schedStep
  rw [if_neg (by linarith)]

theorem schedStep_of_lt (xs ys : ℚ) (st : SchedState) (t : ℚ) (h : st.time < t) :
    schedStep xs ys st t =
      ⟨(st.pos.1 + xs * (t - st.time), st.pos.2 + ys * (t - st.time)), t,
        st.events ++
          [((st.pos.1 + xs * (t - st.time), st.pos.2 + ys * (t - st.time)), t - st.time)]⟩ := by
  unfold schedStep
  rw [if_pos (by linarith)]

theorem runTimes_affine (xs ys : ℚ) :
    ∀ (l : List ℚ) (st : SchedState),
      (runTimes xs ys st l).pos.1 = st.pos.1 + xs * ((runTimes xs ys st l).time - st.time) ∧
      (runTimes xs ys st l).pos.2 = st.pos.2 + ys * ((runTimes xs ys st l).time - st.time) := by
  intro l
  induction l with
  | nil => intro st; constructor <;> simp [runTimes_nil]
  | cons t ts ih =>
    intro st
    rw [runTimes_cons]
    rcases le_or_lt t st.time with h | h
    · rw [schedStep_of_le xs ys st t h]
      exact ih st
    · rw [schedStep_of_lt xs ys st t h]
      obtain ⟨h1, h2⟩ := ih ⟨(st.pos.1 + xs * (t - st.time), st.pos.2 + ys * (t - st.time)), t,
        st.events ++
          [((st.pos.1 + xs * (t - st.time), st.pos.2 + ys * (t - st.time)), t - st.time)]⟩
      constructor
      · rw [h1]; ring
      · rw [h2]; ring

theorem runTimes_strict (xs ys : ℚ) :
    ∀ (l : List ℚ) (st : SchedState),
      (∀ t ∈ l, st.time < t) → l.Pairwise (· < ·) →
      (runTimes xs ys st l).events.length = st.events.length + l.length ∧
      (runTimes xs ys st l).time = l.getLast?.getD st.time := by
  intro l
  induction l with
  | nil => intro st _ _; exact ⟨by simp [runTimes_nil], by simp [runTimes_nil]⟩
  | cons t ts ih =>
    intro st hmem hpw
    have ht : st.time < t := hmem t (List.mem_cons_self t ts)
    rw [runTimes_cons, schedStep_of_lt xs ys st t ht]
    rcases List.pairwise_cons.mp hpw with ⟨hrel, hpw2⟩
    obtain ⟨h1, h2⟩ := ih ⟨(st.pos.1 + xs * (t - st.time), st.pos.2 + ys * (t - st.time)), t,
        st.events ++
          [((st.pos.1 + xs * (t - st.time), st.pos.2 + ys * (t - st.time)), t - st.time)]⟩
      (fun x hx => hrel x hx) hpw2
    constructor
    · rw [h1]
      simp only [List.length_append, List.length_cons, List.length_nil]
      omega
    · rw [h2]
      cases ts with
      | nil => simp
      | cons u us =>
        have hne : (u :: us).getLast? ≠ none := by
          simp [List.getLast?_eq_none_iff]
        obtain ⟨v, hv⟩ := Option.ne_none_iff_exists'.mp hne
        rw [List.getLast?_cons_cons, hv]
        rfl

/-! ### Minimum and argmin lemmas -/

theorem minD_cons (a d : ℚ) (l : List ℚ) : minD (a :: l) d = minD l (min d a) := rfl

theorem minD_le_init : ∀ (l : List ℚ) (d : ℚ), minD l d ≤ d := by
  intro l
  induction l with
  | nil => intro d; exact le_refl d
  | cons a as ih =>
    intro d
    rw [minD_cons]
    exact le_trans (ih (min d a)) (min_le_left d a)

theorem minD_le_mem : ∀ (l : List ℚ) (d x : ℚ), x ∈ l → minD l d ≤ x := by
  intro l
  induction l with
  | nil => intro d x hx; exact absurd hx (List.not_mem_nil x)
  | cons a as ih =>
    intro d x hx
    rw [minD_cons]
    rcases List.mem_cons.mp hx with h | h
    · subst h
      exact le_trans (minD_le_init as (min d x)) (min_le_right d x)
    · exact ih (min d a) x h

theorem min_minD : ∀ (l : List ℚ) (d e : ℚ), min d (minD l e) = minD l (min d e) := by
  intro l
  induction l with
  | nil => intro d e; rfl
  | cons a as ih =>
    intro d e
    rw [minD_cons, minD_cons, ih d (min e a), min_assoc]

theorem argminFirst_lt_length : ∀ (l : List ℚ), l ≠ [] → argminFirst l < l.length := by
  intro l
  induction l with
  | nil => intro h; exact absurd rfl h
  | cons x xs ih =>
    intro _
    cases xs with
    | nil => simp [argminFirst]
    | cons y rest =>
      show (if x ≤ minD rest y then 0 else argminFirst (y :: rest) + 1) < _
      split
      · simp
      · have hlt := ih (by simp)
        simpa [List.length_cons] using Nat.succ_lt_succ hlt

theorem argminFirst_attains :
    ∀ (xs : List ℚ) (x : ℚ), (x :: xs).getD (argminFirst (x :: xs)) 0 = minD xs x := by
  intro xs
  induction xs with
  | nil => intro x; rfl
  | cons y rest ih =>
    intro x
    show (x :: y :: rest).getD (if x ≤ minD rest y then 0 else argminFirst (y :: rest) + 1) 0 = _
    by_cases h : x ≤ minD rest y
    · rw [if_pos h]
      show x = minD (y :: rest) x
      rw [minD_cons, ← min_minD]
      exact (min_eq_left h).symm
    · rw [if_neg h]
      rw [List.getD_cons_succ, ih y, minD_cons, ← min_minD]
      have hx : minD rest y < x := lt_of_not_le h
      exact (min_eq_right (le_of_lt hx)).symm

theorem argminFirst_le_getD (x : ℚ) (xs : List ℚ) :
    ∀ (j : ℕ), j < (x :: xs).length →
      (x :: xs).getD (argminFirst (x :: xs)) 0 ≤ (x :: xs).getD j 0 := by
  intro j hj
  rw [argminFirst_attains xs x]
  cases j with
  | zero => exact minD_le_init xs x
  | succ k =>
    have hk : k < xs.length := by simpa [List.length_cons] using hj
    rw [List.getD_cons_succ]
    refine minD_le_mem xs x _ ?_
    rw [List.getD_eq_getElem _ _ hk]
    exact List.getElem_mem hk

theorem argminFirst_strict_before :
    ∀ (l : List ℚ) (j : ℕ), j < argminFirst l →
      l.getD (argminFirst l) 0 < l.getD j 0 := by
  intro l
  induction l with
  | nil => intro j hj; simp [argminFirst] at hj
  | cons x xs ih =>
    cases xs with
    | nil => intro j hj; simp [argminFirst] at hj
    | cons y rest =>
      intro j hj
      have hform : argminFirst (x :: y :: rest) =
          if x ≤ minD rest y then 0 else argminFirst (y :: rest) + 1 := rfl
      by_cases h : x ≤ minD rest y
      · rw [hform, if_pos h] at hj
        exact absurd hj (Nat.not_lt_zero j)
      · rw [hform, if_neg h] at hj ⊢
        have hx : minD rest y < x := lt_of_not_le h
        cases j with
        | zero =>
          rw [List.getD_cons_succ, List.getD_cons_zero, argminFirst_attains rest y]
          exact hx
        | succ k =>
          have hk : k < argminFirst (y :: rest) := Nat.lt_of_succ_lt_succ hj
          rw [List.getD_cons_succ, List.getD_cons_succ]
          exact ih k hk

/-! ### Claim C1: calibration fallback -/

/-- Claim C1, counterexample.  The claim states that a non-positive fitted
spray diameter makes deposition fail with a calibration error and that the
system never substitutes a default kernel diameter.  With control points
`z = [0, 1]`, `diameter = [1, 0]`, offset `0`, the fit at `z = 5` is `-4 ≤ 0`,
yet `Nozzle.__init__` silently produces the positive default diameter
`max(3 · 0.5, 1.0) = 3/2` and proceeds. -/
theorem maldi_c1_counterexample :
    getDiameterForZ ⟨[0, 1], [1, 0], 0⟩ 5 = -4 ∧
    getDiameterForZ ⟨[0, 1], [1, 0], 0⟩ 5 ≤ 0 ∧
    nozzleKernelDiameter ⟨[0, 1], [1, 0], 0⟩ (1 / 2) 5 = 3 / 2 ∧
    (0 : ℚ) < 3 / 2 := by
  refine ⟨?_, ?_, ?_, by norm_num⟩ <;>
    · simp [nozzleKernelDiameter, getDiameterForZ, olsSlope, olsIntercept]
      norm_num

/-- Claim C1, amended.  For every calibration table whose fitted diameter at
the active height is non-positive, `Nozzle.__init__` silently substitutes the
default kernel diameter `max(3 · step, 1.0)` — a positive value — in place of
the invalid fitted value; no calibration error is raised by the nozzle. -/
theorem maldi_c1_amended (tbl : CalibTable) (step z : ℚ)
    (h : getDiameterForZ tbl z ≤ 0) :
    nozzleKernelDiameter tbl step z = max (step * 3) 1 ∧
    0 < nozzleKernelDiameter tbl step z := by
  have heq : nozzleKernelDiameter tbl step z = max (step * 3) 1 := by
    unfold nozzleKernelDiameter
    rw [if_pos h]
  refine ⟨heq, ?_⟩
  rw [heq]
  exact lt_of_lt_of_le one_pos (le_max_right (step * 3) 1)

/-- Claim C1, witness: the amended theorem applied to the concrete table
with a `-4` fit at `z = 5` and grid step `0.5`. -/
theorem maldi_c1_witness :
    nozzleKernelDiameter ⟨[0, 1], [1, 0], 0⟩ (1 / 2) 5 = max ((1 / 2) * 3) 1 ∧
    0 < nozzleKernelDiameter ⟨[0, 1], [1, 0], 0⟩ (1 / 2) 5 :=
  maldi_c1_amended ⟨[0, 1], [1, 0], 0⟩ (1 / 2) 5
    (by simp [getDiameterForZ, olsSlope, olsIntercept]; norm_num)

/-! ### Claim C9: Movement field conversion -/

/-- Claim C9, counterexample.  The claim states that stored `x`, `y`, `speed`
are always non-negative; `Movement(-1, 2, 3)` stores `x = -1 < 0`
(`__post_init__` only applies `float(...)`). -/
theorem maldi_c9_counterexample :
    (mkMovement (-1) 2 3).x = -1 ∧ ¬(0 ≤ (mkMovement (-1) 2 3).x) := by
  constructor
  · rfl
  · norm_num [mkMovement]

/-- Claim C9, amended.  For every Movement constructed with real-valued `x`,
`y`, `speed`, the stored fields are exactly the given real values (Python
`float(...)` conversion, the identity on reals); signs are preserved, so a
negative input remains negative. -/
theorem maldi_c9_amended (x y s : ℚ) :
    (mkMovement x y s).x = x ∧ (mkMovement x y s).y = y ∧
    (mkMovement x y s).speed = s ∧ (mkMovement x y s).acceleration = 0 :=
  ⟨rfl, rfl, rfl, rfl⟩

/-! ### Scheduler movement processing -/

theorem linspaceQ_one (a b : ℚ) : linspaceQ a b 1 = [a] := by
  unfold linspaceQ
  norm_num

theorem one_le_numSubSteps (d step mts : ℚ) : 1 ≤ numSubSteps d step mts := by
  unfold numSubSteps
  have h : (1 : ℤ) ≤ max 1 (if mts < (ratTrunc (d / step) : ℚ) then ratTrunc (d / step)
      else ratTrunc (d / mts)) := le_max_left _ _
  omega

theorem processMovement_run (pos : ℚ × ℚ) (t0 : ℚ) (m : Movement) (d step mts : ℚ)
    (hstep : 0 < step) (hd : step ≤ d) (hspeed : 0 < m.speed) :
    (processMovement pos t0 m d step mts).2.2.length + 1 = numSubSteps d step mts ∧
    (2 ≤ numSubSteps d step mts →
      (processMovement pos t0 m d step mts).1 = (m.x, m.y) ∧
      (processMovement pos t0 m d step mts).2.1 = t0 + d / m.speed) := by
  have hd0 : 0 < d := lt_of_lt_of_le hstep hd
  have hsne : m.speed ≠ 0 := ne_of_gt hspeed
  have hdur : 0 < d / m.speed := div_pos hd0 hspeed
  have hdne : d / m.speed ≠ 0 := ne_of_gt hdur
  have hproc : processMovement pos t0 m d step mts =
      ((runTimes ((m.x - pos.1) / (d / m.speed)) ((m.y - pos.2) / (d / m.speed))
          ⟨pos, t0, []⟩ (linspaceQ t0 (t0 + d / m.speed) (numSubSteps d step mts))).pos,
       (runTimes ((m.x - pos.1) / (d / m.speed)) ((m.y - pos.2) / (d / m.speed))
          ⟨pos, t0, []⟩ (linspaceQ t0 (t0 + d / m.speed) (numSubSteps d step mts))).time,
       (runTimes ((m.x - pos.1) / (d / m.speed)) ((m.y - pos.2) / (d / m.speed))
          ⟨pos, t0, []⟩ (linspaceQ t0 (t0 + d / m.speed) (numSubSteps d step mts))).events) := by
    simp only [processMovement]
    rw [if_neg (not_lt.mpr hd), if_pos hsne, if_neg hdne, if_neg hdne]
  rw [hproc]
  obtain ⟨k, hk⟩ : ∃ k, numSubSteps d step mts = k + 1 :=
    ⟨numSubSteps d step mts - 1, by have := one_le_numSubSteps d step mts; omega⟩
  cases k with
  | zero =>
    rw [hk, linspaceQ_one, runTimes_cons, schedStep_of_le _ _ _ _ (le_refl t0), runTimes_nil]
    refine ⟨rfl, ?_⟩
    intro h2
    exact absurd h2 (by omega)
  | succ j =>
    have hts : linspaceQ t0 (t0 + d / m.speed) (j + 2) =
        t0 :: (List.range (j + 1)).map
          (fun (i : ℕ) => t0 + (d / m.speed) * ((i : ℚ) + 1) / ((j + 1 : ℕ) : ℚ)) := by
      rw [linspaceQ_succ_succ]
      refine congrArg₂ _ (by ring) ?_
      refine List.map_congr_left ?_
      intro i _
      ring
    have hjq : (0 : ℚ) < ((j + 1 : ℕ) : ℚ) := by exact_mod_cast Nat.succ_pos j
    have hmem : ∀ x ∈ (List.range (j + 1)).map
        (fun (i : ℕ) => t0 + (d / m.speed) * ((i : ℚ) + 1) / ((j + 1 : ℕ) : ℚ)),
        (⟨pos, t0, []⟩ : SchedState).time < x := by
      intro x hx
      obtain ⟨i, _, rfl⟩ := List.mem_map.mp hx
      show t0 < t0 + (d / m.speed) * ((i : ℚ) + 1) / ((j + 1 : ℕ) : ℚ)
      have hpos : (0 : ℚ) < (d / m.speed) * ((i : ℚ) + 1) / ((j + 1 : ℕ) : ℚ) := by
        apply div_pos (mul_pos hdur (by positivity)) hjq
      linarith
    have hpw : ((List.range (j + 1)).map
        (fun (i : ℕ) => t0 + (d / m.speed) * ((i : ℚ) + 1) / ((j + 1 : ℕ) : ℚ))).Pairwise
        (· < ·) := by
      rw [List.pairwise_map]
      refine (List.pairwise_lt_range (j + 1)).imp ?_
      intro a b hab
      have hlt : ((a : ℚ) + 1) < ((b : ℚ) + 1) := by
        have : (a : ℚ) < (b : ℚ) := by exact_mod_cast hab
        linarith
      have hmul : (d / m.speed) * ((a : ℚ) + 1) < (d / m.speed) * ((b : ℚ) + 1) :=
        mul_lt_mul_of_pos_left hlt hdur
      have := (div_lt_div_iff_of_pos_right hjq).mpr hmul
      linarith
    rw [hk, hts, runTimes_cons, schedStep_of_le _ _ _ _ (le_refl t0)]
    obtain ⟨hlen, htime⟩ := runTimes_strict ((m.x - pos.1) / (d / m.speed))
      ((m.y - pos.2) / (d / m.speed))
      ((List.range (j + 1)).map
        (fun (i : ℕ) => t0 + (d / m.speed) * ((i : ℚ) + 1) / ((j + 1 : ℕ) : ℚ)))
      ⟨pos, t0, []⟩ hmem hpw
    have hrestlen : ((List.range (j + 1)).map
        (fun (i : ℕ) => t0 + (d / m.speed) * ((i : ℚ) + 1) / ((j + 1 : ℕ) : ℚ))).length =
        j + 1 := by
      rw [List.length_map, List.length_range]
    have hlast : ((List.range (j + 1)).map
        (fun (i : ℕ) => t0 + (d / m.speed) * ((i : ℚ) + 1) / ((j + 1 : ℕ) : ℚ))).getLast? =
        some (t0 + d / m.speed) := by
      rw [List.getLast?_map, List.range_succ, List.getLast?_concat]
      show some (t0 + (d / m.speed) * ((j : ℚ) + 1) / ((j + 1 : ℕ) : ℚ)) = _
      have hcast : ((j : ℚ) + 1) = ((j + 1 : ℕ) : ℚ) := by push_cast; ring
      rw [hcast, mul_div_assoc, div_self (ne_of_gt hjq), mul_one]
    have htime2 : (runTimes ((m.x - pos.1) / (d / m.speed)) ((m.y - pos.2) / (d / m.speed))
        (⟨pos, t0, []⟩ : SchedState)
        ((List.range (j + 1)).map
          (fun (i : ℕ) => t0 + (d / m.speed) * ((i : ℚ) + 1) / ((j + 1 : ℕ) : ℚ)))).time =
        t0 + d / m.speed := by
      rw [htime, hlast]
      rfl
    constructor
    · rw [hlen, hrestlen]
      simp
    · intro _
      obtain ⟨hpx, hpy⟩ := runTimes_affine ((m.x - pos.1) / (d / m.speed))
        ((m.y - pos.2) / (d / m.speed))
        ((List.range (j + 1)).map
          (fun (i : ℕ) => t0 + (d / m.speed) * ((i : ℚ) + 1) / ((j + 1 : ℕ) : ℚ)))
        ⟨pos, t0, []⟩
      constructor
      · rw [Prod.ext_iff]
        constructor
        · rw [hpx, htime2]
          show pos.1 + (m.x - pos.1) / (d / m.speed) * (t0 + d / m.speed - t0) = m.x
          rw [show t0 + d / m.speed - t0 = d / m.speed from by ring,
            div_mul_cancel₀ _ hdne]
          ring
        · rw [hpy, htime2]
          show pos.2 + (m.y - pos.2) / (d / m.speed) * (t0 + d / m.speed - t0) = m.y
          rw [show t0 + d / m.speed - t0 = d / m.speed from by ring,
            div_mul_cancel₀ _ hdne]
          ring
      · exact htime2

/-! ### Claim C3: sub-step count -/

/-- Claim C3, counterexample.  The claim states that the sub-step count is
the larger of `floor(d/step)` and `floor(d/min_time_step)` (never below 1).
For `d = 1`, `step = 1/2`, `min_time_step = 1/10` the code subdivides into
`2` linspace points (`int(d/step) = 2 > 0.1`), while the claimed finer
subdivision would be `max(1, max(2, 10)) = 10`. -/
theorem maldi_c3_counterexample :
    (processMovement (0, 0) 0 (mkMovement 1 0 1) 1 (1 / 2) (1 / 10)).2.2.length + 1 = 2 ∧
    max 1 (max (ratTrunc ((1 : ℚ) / (1 / 2))) (ratTrunc ((1 : ℚ) / (1 / 10)))) = 10 ∧
    (2 : ℤ) ≠ 10 := by
  have hn : numSubSteps 1 (1 / 2) (1 / 10) = 2 := by
    norm_num [numSubSteps, ratTrunc]
    all_goals decide
  have h := (processMovement_run (0, 0) 0 (mkMovement 1 0 1) 1 (1 / 2) (1 / 10)
    (by norm_num) (by norm_num) (by norm_num [mkMovement])).1
  rw [hn] at h
  refine ⟨h, ?_, by norm_num⟩
  norm_num [ratTrunc]

/-- Claim C3, amended.  For every movement at distance `d` of at least one
grid cell step (with positive step, positive minimum time step and positive
speed), the Scheduler subdivides the travel over `N = max(1, c)` linspace
points — performing `N − 1` positive-duration sub-steps — where
`c = floor(d/step)` when `floor(d/step) > min_time_step` (a count compared
against a time value) and `c = floor(d/min_time_step)` otherwise; `N` is not
in general the finer of the two subdivisions. -/
theorem maldi_c3_amended (pos : ℚ × ℚ) (t0 : ℚ) (m : Movement) (d step mts : ℚ)
    (hstep : 0 < step) (hmts : 0 < mts) (hd : step ≤ d) (hspeed : 0 < m.speed) :
    (processMovement pos t0 m d step mts).2.2.length + 1 =
      (max 1 (if mts < (ratTrunc (d / step) : ℚ) then ratTrunc (d / step)
              else ratTrunc (d / mts))).toNat :=
  (processMovement_run pos t0 m d step mts hstep hd hspeed).1

/-- Claim C3, witness: the amended count identity at `d = 2`, `step = 1/2`,
`min_time_step = 1/10`, speed `1`: three sub-steps out of four linspace
points. -/
theorem maldi_c3_witness :
    (processMovement (0, 0) 0 (mkMovement 2 0 1) 2 (1 / 2) (1 / 10)).2.2.length + 1 =
      (max 1 (if (1 / 10 : ℚ) < (ratTrunc ((2 : ℚ) / (1 / 2)) : ℚ)
              then ratTrunc ((2 : ℚ) / (1 / 2))
              else ratTrunc ((2 : ℚ) / (1 / 10)))).toNat :=
  maldi_c3_amended (0, 0) 0 (mkMovement 2 0 1) 2 (1 / 2) (1 / 10)
    (by norm_num) (by norm_num) (by norm_num) (by norm_num [mkMovement])

/-! ### Claim C4: distance-duration identity -/

/-- Claim C4, counterexample.  The claim states that any single movement with
speed `v > 0` and distance `d > step` ends at the target with elapsed time
`d/v`.  For `d = 3/4`, `step = 1/2`, `min_time_step = 1/10`, speed `1`, the
computed sub-step count is `1`, `np.linspace` returns only the start time,
every increment is zero, and the scheduler neither moves nor advances time
(target `3/4` missed, elapsed `0` instead of `3/4`). -/
theorem maldi_c4_counterexample :
    ((1 : ℚ) / 2 < 3 / 4) ∧
    (0 : ℚ) < (mkMovement (3 / 4) 0 1).speed ∧
    (processMovement (0, 0) 0 (mkMovement (3 / 4) 0 1) (3 / 4) (1 / 2) (1 / 10)).1 = (0, 0) ∧
    (processMovement (0, 0) 0 (mkMovement (3 / 4) 0 1) (3 / 4) (1 / 2) (1 / 10)).2.1 = 0 ∧
    ((0 : ℚ), (0 : ℚ)) ≠ ((mkMovement (3 / 4) 0 1).x, (mkMovement (3 / 4) 0 1).y) ∧
    (0 : ℚ) ≠ 0 + (3 / 4) / (mkMovement (3 / 4) 0 1).speed := by
  have hn : numSubSteps (3 / 4) (1 / 2) (1 / 10) = 1 := by
    have ht1 : Int.tdiv 3 2 = 1 := by decide
    have ht2 : Int.tdiv 15 2 = 7 := by decide
    norm_num [numSubSteps, ratTrunc, ht1, ht2]
  have hsne : (mkMovement (3 / 4) 0 1).speed ≠ 0 := by norm_num [mkMovement]
  have hdne : (3 / 4 : ℚ) / (mkMovement (3 / 4) 0 1).speed ≠ 0 := by norm_num [mkMovement]
  have hproc : processMovement (0, 0) 0 (mkMovement (3 / 4) 0 1) (3 / 4) (1 / 2) (1 / 10) =
      ((0, 0), 0, []) := by
    simp only [processMovement]
    rw [if_neg (by norm_num), if_pos hsne, if_neg hdne, if_neg hdne, hn, linspaceQ_one,
      runTimes_cons, schedStep_of_le _ _ _ _ (le_refl 0), runTimes_nil]
  refine ⟨by norm_num, by norm_num [mkMovement], ?_, ?_, ?_, ?_⟩
  · rw [hproc]
  · rw [hproc]
  · intro h
    have := congrArg Prod.fst h
    norm_num [mkMovement] at this
  · norm_num [mkMovement]

/-- Claim C4, amended.  For every single movement with speed `v > 0` and
straight-line distance `d > step` whose computed sub-step count is at least
2, the final position equals the movement target exactly (in exact
arithmetic) and the simulated time advances by exactly `d/v`.  When the
computed count is 1 (for example `step ≤ d < 2·step` with
`min_time_step < 1`), the scheduler performs no sub-step at all: position and
time remain unchanged. -/
theorem maldi_c4_amended (pos : ℚ × ℚ) (t0 : ℚ) (m : Movement) (d step mts : ℚ)
    (hstep : 0 < step) (hd : step < d) (hspeed : 0 < m.speed)
    (hn : 2 ≤ numSubSteps d step mts) :
    (processMovement pos t0 m d step mts).1 = (m.x, m.y) ∧
    (processMovement pos t0 m d step mts).2.1 = t0 + d / m.speed :=
  (processMovement_run pos t0 m d step mts hstep (le_of_lt hd) hspeed).2 hn

/-- Claim C4, witness: the amended identity at target `(2, 0)`, speed `1`,
`d = 2`, `step = 1/2`, `min_time_step = 1/10` (four linspace points). -/
theorem maldi_c4_witness :
    (processMovement (0, 0) 0 (mkMovement 2 0 1) 2 (1 / 2) (1 / 10)).1 = ((2 : ℚ), (0 : ℚ)) ∧
    (processMovement (0, 0) 0 (mkMovement 2 0 1) 2 (1 / 2) (1 / 10)).2.1 = 2 := by
  have h := maldi_c4_amended (0, 0) 0 (mkMovement 2 0 1) 2 (1 / 2) (1 / 10)
    (by norm_num) (by norm_num) (by norm_num [mkMovement])
    (by norm_num [numSubSteps, ratTrunc])
  refine ⟨h.1, ?_⟩
  rw [h.2]
  norm_num [mkMovement]

/-! ### Claim C6: stationary dwell and unscaled spray -/

/-- Claim C6.  (a) For every movement whose distance from the current
position is smaller than one grid cell step, the Scheduler sprays exactly
once at the current position with the default duration `0` and continues with
position and simulated time unchanged.  (b) `SprayMask.apply` with duration
`t ≤ 0` behaves exactly as with duration `0`, and at duration `0` every cell
of the clipped window receives the full, unscaled shifted-kernel value — the
kernel is deposited at full instantaneous weight, not skipped. -/
theorem maldi_c6 :
    (∀ (pos : ℚ × ℚ) (t0 : ℚ) (m : Movement) (d step mts : ℚ), d < step →
      processMovement pos t0 m d step mts = (pos, t0, [(pos, 0)])) ∧
    (∀ (cfg : BedCfg) (dep : ℤ → ℤ → ℚ) (pos : ℚ × ℚ) (t : ℚ), t ≤ 0 →
      applySprayDep cfg dep pos t = applySprayDep cfg dep pos 0) ∧
    (∀ (cfg : BedCfg) (dep : ℤ → ℤ → ℚ) (pos : ℚ × ℚ) (i j : ℤ),
      (sprayWindowY0 cfg pos ≤ i ∧ i < sprayWindowY1 cfg pos ∧
        sprayWindowX0 cfg pos ≤ j ∧ j < sprayWindowX1 cfg pos) →
      ∀ t : ℚ, t ≤ 0 →
        applySprayDep cfg dep pos t i j =
          dep i j + sprayShiftAt cfg pos
            (sprayKerY0 cfg pos + (i - sprayWindowY0 cfg pos))
            (sprayKerX0 cfg pos + (j - sprayWindowX0 cfg pos))) := by
  refine ⟨?_, ?_, ?_⟩
  · intro pos t0 m d step mts hlt
    unfold processMovement
    rw [if_pos hlt]
  · intro cfg dep pos t ht
    funext i j
    unfold applySprayDep
    rcases Classical.em (sprayWindowY0 cfg pos ≤ i ∧ i < sprayWindowY1 cfg pos ∧
        sprayWindowX0 cfg pos ≤ j ∧ j < sprayWindowX1 cfg pos) with hw | hw
    · rw [if_pos hw, if_pos hw, if_neg (by linarith), if_neg (by norm_num)]
    · rw [if_neg hw, if_neg hw]
  · intro cfg dep pos i j hw t ht
    unfold applySprayDep
    rw [if_pos hw, if_neg (by linarith)]

/-- Claim C6, witness: the dwell branch at distance `0 < 1/2` from `(1, 1)`
at time `3`, and the unscaled window add for a concrete one-cell
configuration at duration `-1 ≤ 0`. -/
theorem maldi_c6_witness :
    processMovement (1, 1) 3 (mkMovement 1 1 5) 0 (1 / 2) (1 / 10) =
      ((1, 1), 3, [((1, 1), 0)]) ∧
    applySprayDep ⟨3, 3, 1, 1, fun _ _ => 1⟩ (fun _ _ => 0) (1 / 2, 1 / 2) (-1) =
      applySprayDep ⟨3, 3, 1, 1, fun _ _ => 1⟩ (fun _ _ => 0) (1 / 2, 1 / 2) 0 ∧
    applySprayDep ⟨3, 3, 1, 1, fun _ _ => 1⟩ (fun _ _ => 0) (1 / 2, 1 / 2) (-1) 0 0 =
      (fun (_ _ : ℤ) => (0 : ℚ)) 0 0 +
        sprayShiftAt ⟨3, 3, 1, 1, fun _ _ => 1⟩ (1 / 2, 1 / 2)
          (sprayKerY0 ⟨3, 3, 1, 1, fun _ _ => 1⟩ (1 / 2, 1 / 2) +
            (0 - sprayWindowY0 ⟨3, 3, 1, 1, fun _ _ => 1⟩ (1 / 2, 1 / 2)))
          (sprayKerX0 ⟨3, 3, 1, 1, fun _ _ => 1⟩ (1 / 2, 1 / 2) +
            (0 - sprayWindowX0 ⟨3, 3, 1, 1, fun _ _ => 1⟩ (1 / 2, 1 / 2))) := by
  refine ⟨maldi_c6.1 (1, 1) 3 (mkMovement 1 1 5) 0 (1 / 2) (1 / 10) (by norm_num),
    maldi_c6.2.1 ⟨3, 3, 1, 1, fun _ _ => 1⟩ (fun _ _ => 0) (1 / 2, 1 / 2) (-1) (by norm_num),
    maldi_c6.2.2 ⟨3, 3, 1, 1, fun _ _ => 1⟩ (fun _ _ => 0) (1 / 2, 1 / 2) 0 0 ?_ (-1)
      (by norm_num)⟩
  refine ⟨?_, ?_, ?_, ?_⟩ <;>
    norm_num [sprayWindowY0, sprayWindowY1, sprayWindowX0, sprayWindowX1]

/-! ### Serpentine path lemmas -/

theorem take_getD {α : Type} (l : List α) (n i : ℕ) (d : α) (hi : i < n)
    (hil : i < l.length) : (l.take n).getD i d = l.getD i d := by
  have h1 : i < (l.take n).length := by
    rw [List.length_take]
    exact lt_min hi hil
  rw [List.getD_eq_getElem _ _ h1, List.getD_eq_getElem _ _ hil, List.getElem_take]

theorem flatMap_getD_head {α β : Type} (f : α → List β) (k : ℕ) (d : β) (da : α)
    (l : List α) (hlen : ∀ a ∈ l, (f a).length = k) (j : ℕ) (hl : 0 < l.length)
    (hj : j < k) : (l.flatMap f).getD j d = (f (l.getD 0 da)).getD j d := by
  simpa using flatMap_getD_uniform f k d da l hlen 0 j hl hj

theorem serpXRow_length (xLeft xRight : ℚ) (P c : ℕ) :
    ((if c % 2 = 0 then linspaceQ xLeft xRight P
      else (linspaceQ xLeft xRight P).reverse)).length = P := by
  split
  · exact linspaceQ_length xLeft xRight P
  · rw [List.length_reverse]
    exact linspaceQ_length xLeft xRight P

theorem serpPts_length (xLeft xRight yBottom yTop stride : ℚ) (xamnt : ℤ) :
    (serpPts xLeft xRight yBottom yTop stride xamnt).length =
      serpRows yTop yBottom stride * (max 2 xamnt).toNat := by
  unfold serpPts
  have hxlen : ((List.range (serpRows yTop yBottom stride)).flatMap
      (fun c => if c % 2 = 0 then linspaceQ xLeft xRight (max 2 xamnt).toNat
        else (linspaceQ xLeft xRight (max 2 xamnt).toNat).reverse)).length =
      serpRows yTop yBottom stride * (max 2 xamnt).toNat := by
    rw [flatMap_length_uniform _ (max 2 xamnt).toNat _
      (fun c _ => serpXRow_length xLeft xRight (max 2 xamnt).toNat c), List.length_range]
  have hylen : ((linspaceQ yTop yBottom (serpRows yTop yBottom stride)).flatMap
      (fun y => List.replicate (max 2 xamnt).toNat y)).length =
      serpRows yTop yBottom stride * (max 2 xamnt).toNat := by
    rw [flatMap_length_uniform _ (max 2 xamnt).toNat _
      (fun y _ => List.length_replicate (max 2 xamnt).toNat y), linspaceQ_length]
  rw [List.length_zip, List.length_take, List.length_take, hxlen, hylen]
  simp

theorem serpPts_getD (xLeft xRight yBottom yTop stride : ℚ) (xamnt : ℤ) (r j : ℕ)
    (hr : r < serpRows yTop yBottom stride) (hj : j < (max 2 xamnt).toNat) :
    (serpPts xLeft xRight yBottom yTop stride xamnt).getD
        (r * (max 2 xamnt).toNat + j) (0, 0) =
      ((if r % 2 = 0 then (linspaceQ xLeft xRight (max 2 xamnt).toNat).getD j 0
        else (linspaceQ xLeft xRight (max 2 xamnt).toNat).getD
          ((max 2 xamnt).toNat - 1 - j) 0),
       (linspaceQ yTop yBottom (serpRows yTop yBottom stride)).getD r 0) := by
  have hidx : r * (max 2 xamnt).toNat + j <
      serpRows yTop yBottom stride * (max 2 xamnt).toNat := by
    calc r * (max 2 xamnt).toNat + j
        < r * (max 2 xamnt).toNat + (max 2 xamnt).toNat := by omega
      _ = (r + 1) * (max 2 xamnt).toNat := by ring
      _ ≤ serpRows yTop yBottom stride * (max 2 xamnt).toNat :=
          Nat.mul_le_mul_right _ hr
  have hxlen : ((List.range (serpRows yTop yBottom stride)).flatMap
      (fun c => if c % 2 = 0 then linspaceQ xLeft xRight (max 2 xamnt).toNat
        else (linspaceQ xLeft xRight (max 2 xamnt).toNat).reverse)).length =
      serpRows yTop yBottom stride * (max 2 xamnt).toNat := by
    rw [flatMap_length_uniform _ (max 2 xamnt).toNat _
      (fun c _ => serpXRow_length xLeft xRight (max 2 xamnt).toNat c), List.length_range]
  have hylen : ((linspaceQ yTop yBottom (serpRows yTop yBottom stride)).flatMap
      (fun y => List.replicate (max 2 xamnt).toNat y)).length =
      serpRows yTop yBottom stride * (max 2 xamnt).toNat := by
    rw [flatMap_length_uniform _ (max 2 xamnt).toNat _
      (fun y _ => List.length_replicate (max 2 xamnt).toNat y), linspaceQ_length]
  unfold serpPts
  rw [zip_getD _ _ _ 0 0]
  · rw [take_getD _ _ _ _ (by rw [hxlen, hylen]; omega) (by rw [hxlen]; exact hidx),
      take_getD _ _ _ _ (by rw [hxlen, hylen]; omega) (by rw [hylen]; exact hidx)]
    refine congrArg₂ _ ?_ ?_
    · rw [flatMap_getD_uniform _ (max 2 xamnt).toNat 0 0 _
        (fun c _ => serpXRow_length xLeft xRight (max 2 xamnt).toNat c) r j
        (by rw [List.length_range]; exact hr) hj]
      rw [range_getD _ _ hr]
      split
      · rfl
      · rw [reverse_getD _ _ _ (by rw [linspaceQ_length]; exact hj), linspaceQ_length]
    · rw [flatMap_getD_uniform _ (max 2 xamnt).toNat 0 0 _
        (fun y _ => List.length_replicate (max 2 xamnt).toNat y) r j
        (by rw [linspaceQ_length]; exact hr) hj]
      rw [replicate_getD _ _ _ _ hj]
  · rw [List.length_take, hxlen, hylen]
    omega
  · rw [List.length_take, hxlen, hylen]
    omega

theorem computeSerpentines_of_valid (bmSize blx bly xsize ysize margin : ℚ)
    (xamnt : ℤ) (stride speed : ℚ) (passes : ℕ) (alt : Bool)
    (hvalid : (serpZone bmSize blx bly xsize ysize margin).1 <
        (serpZone bmSize blx bly xsize ysize margin).2.1 ∧
      (serpZone bmSize blx bly xsize ysize margin).2.2.1 <
        (serpZone bmSize blx bly xsize ysize margin).2.2.2) :
    computeSerpentines bmSize blx bly xsize ysize margin xamnt stride speed passes alt =
      (List.range passes).flatMap
        (fun p =>
          let pts := serpPts (serpZone bmSize blx bly xsize ysize margin).1
            (serpZone bmSize blx bly xsize ysize margin).2.1
            (serpZone bmSize blx bly xsize ysize margin).2.2.1
            (serpZone bmSize blx bly xsize ysize margin).2.2.2 stride xamnt
          let n := pts.length
          let order := if p % 2 = 0 then List.range n else (List.range n).reverse
          order.map
            (fun i =>
              let yOfs : ℚ := if p % 2 ≠ 0 ∧ alt = true then stride / 2 else 0
              let q := pts.getD i (0, 0)
              mkMovement q.1 (q.2 + yOfs) speed)) := by
  unfold computeSerpentines
  rw [if_pos hvalid]

theorem computeSerpentines_length_of_valid (bmSize blx bly xsize ysize margin : ℚ)
    (xamnt : ℤ) (stride speed : ℚ) (passes : ℕ) (alt : Bool)
    (hvalid : (serpZone bmSize blx bly xsize ysize margin).1 <
        (serpZone bmSize blx bly xsize ysize margin).2.1 ∧
      (serpZone bmSize blx bly xsize ysize margin).2.2.1 <
        (serpZone bmSize blx bly xsize ysize margin).2.2.2) :
    (computeSerpentines bmSize blx bly xsize ysize margin xamnt stride speed passes alt).length =
      passes * (serpRows (serpZone bmSize blx bly xsize ysize margin).2.2.2
        (serpZone bmSize blx bly xsize ysize margin).2.2.1 stride *
        (max 2 xamnt).toNat) := by
  rw [computeSerpentines_of_valid bmSize blx bly xsize ysize margin xamnt stride speed
    passes alt hvalid]
  rw [flatMap_length_uniform _
    ((serpPts (serpZone bmSize blx bly xsize ysize margin).1
      (serpZone bmSize blx bly xsize ysize margin).2.1
      (serpZone bmSize blx bly xsize ysize margin).2.2.1
      (serpZone bmSize blx bly xsize ysize margin).2.2.2 stride xamnt).length)]
  · rw [List.length_range, serpPts_length]
  · intro p _
    show (List.map _ (if p % 2 = 0 then _ else _)).length = _
    rw [List.length_map]
    split
    · rw [List.length_range]
    · rw [List.length_reverse, List.length_range]

theorem computeSerpentines_getD_pass0 (bmSize blx bly xsize ysize margin : ℚ)
    (xamnt : ℤ) (stride speed : ℚ) (passes : ℕ) (alt : Bool)
    (hvalid : (serpZone bmSize blx bly xsize ysize margin).1 <
        (serpZone bmSize blx bly xsize ysize margin).2.1 ∧
      (serpZone bmSize blx bly xsize ysize margin).2.2.1 <
        (serpZone bmSize blx bly xsize ysize margin).2.2.2)
    (hpasses : 0 < passes) (i : ℕ)
    (hi : i < (serpPts (serpZone bmSize blx bly xsize ysize margin).1
      (serpZone bmSize blx bly xsize ysize margin).2.1
      (serpZone bmSize blx bly xsize ysize margin).2.2.1
      (serpZone bmSize blx bly xsize ysize margin).2.2.2 stride xamnt).length) :
    (computeSerpentines bmSize blx bly xsize ysize margin xamnt stride speed
        passes alt).getD i default =
      mkMovement
        ((serpPts (serpZone bmSize blx bly xsize ysize margin).1
          (serpZone bmSize blx bly xsize ysize margin).2.1
          (serpZone bmSize blx bly xsize ysize margin).2.2.1
          (serpZone bmSize blx bly xsize ysize margin).2.2.2 stride xamnt).getD i (0, 0)).1
        ((serpPts (serpZone bmSize blx bly xsize ysize margin).1
          (serpZone bmSize blx bly xsize ysize margin).2.1
          (serpZone bmSize blx bly xsize ysize margin).2.2.1
          (serpZone bmSize blx bly xsize ysize margin).2.2.2 stride xamnt).getD i (0, 0)).2
        speed := by
  rw [computeSerpentines_of_valid bmSize blx bly xsize ysize margin xamnt stride speed
    passes alt hvalid]
  rw [flatMap_getD_head _
    ((serpPts (serpZone bmSize blx bly xsize ysize margin).1
      (serpZone bmSize blx bly xsize ysize margin).2.1
      (serpZone bmSize blx bly xsize ysize margin).2.2.1
      (serpZone bmSize blx bly xsize ysize margin).2.2.2 stride xamnt).length)
    default 0]
  · rw [range_getD _ _ hpasses]
    show ((List.range _).map _).getD i default = _
    rw [map_getD _ _ _ _ 0 (by rw [List.length_range]; exact hi), range_getD _ _ hi]
    simp
  · intro p _
    show (List.map _ (if p % 2 = 0 then _ else _)).length = _
    rw [List.length_map]
    split
    · rw [List.length_range]
    · rw [List.length_reverse, List.length_range]
  · rw [List.length_range]
    exact hpasses
  · exact hi

/-! ### Claim C7: serpentine row structure -/

/-- Claim C7, amended.  For every stride of at least `1e-9` (the generator
divides by `max(stride, 1e-9)`), margin, and non-degenerate clamped movement
zone, the generated single-pass grid has `R = max(2, floor(h/stride) + 1)`
sweep rows (`h` the zone height) of `P = max(2, x_amnt)` lateral points each;
consecutive rows alternate direction with row 0 running from the zone's left
edge to its right edge; and the total movement count is `passes · R · P`. -/
theorem maldi_c7_amended (bmSize blx bly xsize ysize margin : ℚ) (xamnt : ℤ)
    (stride speed : ℚ) (passes : ℕ) (alt : Bool) (R P : ℕ)
    (hstride : (1 : ℚ) / 1000000000 ≤ stride)
    (hx : (serpZone bmSize blx bly xsize ysize margin).1 <
      (serpZone bmSize blx bly xsize ysize margin).2.1)
    (hy : (serpZone bmSize blx bly xsize ysize margin).2.2.1 <
      (serpZone bmSize blx bly xsize ysize margin).2.2.2)
    (hR : R = (max 2 (ratTrunc (((serpZone bmSize blx bly xsize ysize margin).2.2.2 -
      (serpZone bmSize blx bly xsize ysize margin).2.2.1) / stride) + 1)).toNat)
    (hP : P = (max 2 xamnt).toNat) :
    (computeSerpentines bmSize blx bly xsize ysize margin xamnt stride speed
        passes alt).length = passes * (R * P) ∧
    (0 < passes → ∀ r j : ℕ, r < R → j < P →
      (computeSerpentines bmSize blx bly xsize ysize margin xamnt stride speed
          passes alt).getD (r * P + j) default =
        mkMovement
          (if r % 2 = 0 then
            (linspaceQ (serpZone bmSize blx bly xsize ysize margin).1
              (serpZone bmSize blx bly xsize ysize margin).2.1 P).getD j 0
           else
            (linspaceQ (serpZone bmSize blx bly xsize ysize margin).1
              (serpZone bmSize blx bly xsize ysize margin).2.1 P).getD (P - 1 - j) 0)
          ((linspaceQ (serpZone bmSize blx bly xsize ysize margin).2.2.2
            (serpZone bmSize blx bly xsize ysize margin).2.2.1 R).getD r 0)
          speed) := by
  subst hR hP
  have hrows : serpRows (serpZone bmSize blx bly xsize ysize margin).2.2.2
      (serpZone bmSize blx bly xsize ysize margin).2.2.1 stride =
      (max 2 (ratTrunc (((serpZone bmSize blx bly xsize ysize margin).2.2.2 -
        (serpZone bmSize blx bly xsize ysize margin).2.2.1) / stride) + 1)).toNat := by
    unfold serpRows
    rw [abs_of_pos (by linarith), max_eq_left hstride]
  constructor
  · rw [computeSerpentines_length_of_valid _ _ _ _ _ _ _ _ _ _ _ ⟨hx, hy⟩, hrows]
  · intro hpasses r j hr hj
    have e : (r + 1) * (max 2 xamnt).toNat =
        r * (max 2 xamnt).toNat + (max 2 xamnt).toNat := by ring
    have h2 := Nat.mul_le_mul_right ((max 2 xamnt).toNat) (Nat.succ_le_of_lt hr)
    have hi : r * (max 2 xamnt).toNat + j <
        (serpPts (serpZone bmSize blx bly xsize ysize margin).1
          (serpZone bmSize blx bly xsize ysize margin).2.1
          (serpZone bmSize blx bly xsize ysize margin).2.2.1
          (serpZone bmSize blx bly xsize ysize margin).2.2.2 stride xamnt).length := by
      rw [serpPts_length, hrows]
      have h3 : r * (max 2 xamnt).toNat + j < (r + 1) * (max 2 xamnt).toNat := by
        rw [e]; omega
      exact lt_of_lt_of_le h3 h2
    rw [computeSerpentines_getD_pass0 _ _ _ _ _ _ _ _ _ _ _ ⟨hx, hy⟩ hpasses _ hi]
    have hget := serpPts_getD (serpZone bmSize blx bly xsize ysize margin).1
      (serpZone bmSize blx bly xsize ysize margin).2.1
      (serpZone bmSize blx bly xsize ysize margin).2.2.1
      (serpZone bmSize blx bly xsize ysize margin).2.2.2 stride xamnt r j
      (by rw [hrows]; exact hr) hj
    rw [hget, hrows]

/-- Claim C7, witness: the amended structure theorem at bed size 200, mask
box `(40, 40)` sized `8 × 4`, margin 1 (zone `(39, 49) × (39, 45)`),
stride 2, 2 lateral points, 2 passes: `R = 4`, `P = 2`, 16 movements, and the
second row (row index 1) is traversed right-to-left. -/
theorem maldi_c7_witness :
    (computeSerpentines 200 40 40 8 4 1 2 2 5 2 false).length = 2 * (4 * 2) ∧
    (computeSerpentines 200 40 40 8 4 1 2 2 5 2 false).getD (1 * 2 + 0) default =
      mkMovement
        ((linspaceQ (serpZone 200 40 40 8 4 1).1 (serpZone 200 40 40 8 4 1).2.1 2).getD
          (2 - 1 - 0) 0)
        ((linspaceQ (serpZone 200 40 40 8 4 1).2.2.2 (serpZone 200 40 40 8 4 1).2.2.1 4).getD
          1 0) 5 := by
  have hz : serpZone 200 40 40 8 4 1 = (39, 49, 39, 45) := by
    norm_num [serpZone, min_def, max_def, Prod.ext_iff]
  have h := maldi_c7_amended 200 40 40 8 4 1 2 2 5 2 false 4 2
    (by norm_num)
    (by rw [hz]; norm_num)
    (by rw [hz]; norm_num)
    (by rw [hz]; norm_num [ratTrunc]; all_goals decide)
    (by decide)
  refine ⟨h.1, ?_⟩
  have h2 := h.2 (by norm_num) 1 0 (by norm_num) (by norm_num)
  simpa using h2

/-- Claim C7, counterexample.  The claim quantifies over every stride `> 0`,
but the generator divides by `max(stride, 1e-9)`.  For a clamped box of
height `2·10⁻⁹` and stride `10⁻¹⁸` the code produces
`max(2, int(2·10⁻⁹/10⁻⁹)+1) = 3` rows — 6 movements in one pass with 2
lateral points — while the claimed row count `max(2, floor(h/stride)+1)`
gives `2·10⁹ + 1` rows and a total of `4000000002` movements. -/
theorem maldi_c7_counterexample :
    (computeSerpentines 200 0 0 1 (2 / 1000000000) 0 2
      (1 / 1000000000000000000) 5 1 false).length = 6 ∧
    1 * ((max 2 (ratTrunc ((2 / 1000000000 : ℚ) /
      (1 / 1000000000000000000)) + 1)).toNat * 2) = 4000000002 ∧
    (6 : ℕ) ≠ 4000000002 := by
  have hz : serpZone 200 0 0 1 (2 / 1000000000) 0 = (0, 1, 0, 2 / 1000000000) := by
    norm_num [serpZone, min_def, max_def, Prod.ext_iff]
  refine ⟨?_, ?_, by norm_num⟩
  · rw [computeSerpentines_length_of_valid 200 0 0 1 (2 / 1000000000) 0 2
      (1 / 1000000000000000000) 5 1 false
      (by rw [hz]; constructor <;> norm_num)]
    rw [hz]
    show 1 * (serpRows (2 / 1000000000) 0 (1 / 1000000000000000000) *
      (max 2 (2 : ℤ)).toNat) = 6
    have hrows : serpRows (2 / 1000000000) 0 (1 / 1000000000000000000) = 3 := by
      have harg : |(2 : ℚ) / 1000000000 - 0| /
          max ((1 : ℚ) / 1000000000000000000) ((1 : ℚ) / 1000000000) = 2 := by
        rw [max_eq_right (by norm_num), sub_zero, abs_of_pos (by norm_num)]
        norm_num
      unfold serpRows
      rw [harg]
      have ht : ratTrunc 2 = 2 := by norm_num [ratTrunc]
      rw [ht]
      decide
    rw [hrows]
    decide
  · have ht : ratTrunc ((2 / 1000000000 : ℚ) / (1 / 1000000000000000000)) = 2000000000 := by
      norm_num [ratTrunc]
    rw [ht]
    decide

/-! ### Claim C8: region outside the surface -/

/-- Claim C8, counterexample.  The claim states that every region entirely
outside `[0, size]` on an axis yields an empty movement list.  A region at
`x ∈ [201, 211]` on a 200 mm bed is entirely outside, yet with margin 5 the
expanded box re-enters the bed (clamped zone `[196, 200] × [45, 65]`) and the
generator emits 6 movements. -/
theorem maldi_c8_counterexample :
    (200 : ℚ) < 201 ∧
    (computeSerpentines 200 201 50 10 10 5 2 10 5 1 false).length = 6 ∧
    (6 : ℕ) ≠ 0 := by
  have hz : serpZone 200 201 50 10 10 5 = (196, 200, 45, 65) := by
    norm_num [serpZone, min_def, max_def, Prod.ext_iff]
  refine ⟨by norm_num, ?_, by norm_num⟩
  rw [computeSerpentines_length_of_valid 200 201 50 10 10 5 2 10 5 1 false
    (by rw [hz]; constructor <;> norm_num)]
  rw [hz]
  show 1 * (serpRows 65 45 10 * (max 2 (2 : ℤ)).toNat) = 6
  have hrows : serpRows 65 45 10 = 3 := by
    have harg : |(65 : ℚ) - 45| / max (10 : ℚ) ((1 : ℚ) / 1000000000) = 2 := by
      rw [max_eq_left (by norm_num), abs_of_pos (by norm_num)]
      norm_num
    unfold serpRows
    rw [harg]
    have ht : ratTrunc 2 = 2 := by norm_num [ratTrunc]
    rw [ht]
    decide
  rw [hrows]
  decide

/-- Claim C8, amended.  A region whose bounding box lies entirely outside the
work surface `[0, size]` on some axis yields an empty movement list — without
raising an error — provided the margin-expanded clamped interval on that axis
also collapses (`min(size, max + margin) ≤ max(0, min − margin)`); when the
margin re-enters the surface, a non-empty path is generated inside the
clamped expansion instead.  Running the Scheduler on an empty movement
sequence leaves the deposition accumulator unchanged. -/
theorem maldi_c8_amended (bmSize blx bly xsize ysize margin : ℚ) (xamnt : ℤ)
    (stride speed : ℚ) (passes : ℕ) (alt : Bool)
    (h : ((blx + xsize ≤ 0 ∨ bmSize ≤ blx) ∧
          min bmSize (blx + xsize + margin) ≤ max 0 (blx - margin)) ∨
         ((bly + ysize ≤ 0 ∨ bmSize ≤ bly) ∧
          min bmSize (bly + ysize + margin) ≤ max 0 (bly - margin))) :
    computeSerpentines bmSize blx bly xsize ysize margin xamnt stride speed passes alt = [] ∧
    ∀ (cfg : BedCfg) (distf : ℚ × ℚ → ℚ × ℚ → ℚ) (mts : ℚ) (dep : ℤ → ℤ → ℚ),
      (schedulerRun cfg distf mts dep []).dep = dep := by
  refine ⟨?_, fun cfg distf mts dep => rfl⟩
  unfold computeSerpentines serpZone
  dsimp only
  rw [if_neg]
  rintro ⟨h1, h2⟩
  rcases h with ⟨hout, hcol⟩ | ⟨hout, hcol⟩
  · rw [if_pos hcol] at h1
    dsimp only at h1
    have hle : min bmSize (blx + xsize) ≤ max 0 blx := by
      rcases hout with ho | ho
      · exact le_trans (min_le_right _ _) (le_trans ho (le_max_left _ _))
      · exact le_trans (min_le_left _ _) (le_trans ho (le_max_right _ _))
    exact absurd h1 (not_lt.mpr hle)
  · rw [if_pos hcol] at h2
    dsimp only at h2
    have hle : min bmSize (bly + ysize) ≤ max 0 bly := by
      rcases hout with ho | ho
      · exact le_trans (min_le_right _ _) (le_trans ho (le_max_left _ _))
      · exact le_trans (min_le_left _ _) (le_trans ho (le_max_right _ _))
    exact absurd h2 (not_lt.mpr hle)

/-- Claim C8, witness: the amended theorem at a region `x ∈ [201, 211]` on a
200 mm bed with margin 0: the path is empty and an empty scheduler run
leaves a concrete deposition grid unchanged. -/
theorem maldi_c8_witness :
    computeSerpentines 200 201 50 10 10 0 2 10 5 1 false = [] ∧
    (schedulerRun ⟨3, 3, 1, 1, fun _ _ => 1⟩ (fun _ _ => 0) (1 / 10)
      (fun _ _ => 0) []).dep = (fun _ _ => 0) := by
  have h := maldi_c8_amended 200 201 50 10 10 0 2 10 5 1 false
    (Or.inl ⟨Or.inr (by norm_num), by norm_num [min_def, max_def]⟩)
  exact ⟨h.1, h.2 ⟨3, 3, 1, 1, fun _ _ => 1⟩ (fun _ _ => 0) (1 / 10) (fun _ _ => 0)⟩

/-! ### Claim C10: rectangle registration -/

theorem globalShiftQ_zero (f : ℤ → ℤ → ℚ) (i j : ℤ) :
    globalShiftQ f 0 0 i j = f i j := by
  simp [globalShiftQ, Int.floor_intCast]

/-- Claim C10.  For every call to `BedMesh.add_bool_mask` with two or more
rectangles, the result equals the call with only the first rectangle: the
first rectangle's mask is composited into the boolean layer (logical OR at
zero shift), appended to the registry and returned, and the remaining
rectangles are silently ignored (the loop body ends in `return`). -/
theorem maldi_c10 (size : ℚ) (sc : ℕ) (st : BedBoolState) (r1 r2 : RectPts)
    (rest : List RectPts) :
    addBoolMask size sc st (r1 :: r2 :: rest) = addBoolMask size sc st [r1] ∧
    ∃ (st2 : BedBoolState) (m : SampleMaskRec),
      addBoolMask size sc st (r1 :: r2 :: rest) = some (st2, m) ∧
      m = ⟨r1.x1, r1.y1, r1.x2 - r1.x1, r1.y2 - r1.y1⟩ ∧
      st2.registry = st.registry ++ [m] ∧
      ∀ i j : ℕ, i < sc → j < sc →
        st2.boolMesh i j = (st.boolMesh i j || sampleMaskAt size sc m i j) := by
  refine ⟨rfl, ⟨_, _, rfl, rfl, rfl, ?_⟩⟩
  intro i j hi hj
  show sampleMaskApplyMesh size sc _ 0 0 st.boolMesh i j = _
  unfold sampleMaskApplyMesh
  rw [globalShiftQ_zero]
  refine congrArg₂ _ rfl ?_
  have hQ : sampleMaskQ size sc ⟨r1.x1, r1.y1, r1.x2 - r1.x1, r1.y2 - r1.y1⟩
      (i : ℤ) (j : ℤ) =
      (if sampleMaskAt size sc ⟨r1.x1, r1.y1, r1.x2 - r1.x1, r1.y2 - r1.y1⟩ i j
       then (1 : ℚ) else 0) := by
    unfold sampleMaskQ
    rw [if_pos ⟨Int.natCast_nonneg i, by exact_mod_cast hi, Int.natCast_nonneg j,
      by exact_mod_cast hj⟩, Int.toNat_natCast, Int.toNat_natCast]
  rw [hQ]
  cases sampleMaskAt size sc ⟨r1.x1, r1.y1, r1.x2 - r1.x1, r1.y2 - r1.y1⟩ i j <;> simp

/-- Claim C10, witness: registering two rectangles on a 3-cell grid of size 2
processes only the first one, whose mask covers cell `(0, 0)`. -/
theorem maldi_c10_witness :
    ∃ (st2 : BedBoolState) (m : SampleMaskRec),
      addBoolMask 2 3 ⟨fun _ _ => false, []⟩ [⟨0, 1, 0, 1⟩, ⟨0, 2, 0, 2⟩] = some (st2, m) ∧
      st2.boolMesh 0 0 = (false || sampleMaskAt 2 3 m 0 0) := by
  obtain ⟨_, st2, m, heq, _, _, hmesh⟩ :=
    maldi_c10 2 3 ⟨fun _ _ => false, []⟩ ⟨0, 1, 0, 1⟩ ⟨0, 2, 0, 2⟩ []
  exact ⟨st2, m, heq, hmesh 0 0 (by norm_num) (by norm_num)⟩

/-! ### Claim C5: best-stride selection -/

theorem zip_map_snd {α β γ : Type} (g : β → γ) :
    ∀ (l1 : List α) (l2 : List β), l1.length = l2.length →
      (l1.zip l2).map (fun p => g p.2) = l2.map g := by
  intro l1
  induction l1 with
  | nil =>
    intro l2 h
    cases l2 with
    | nil => rfl
    | cons b bs => simp at h
  | cons a as ih =>
    intro l2 h
    cases l2 with
    | nil => simp at h
    | cons b bs =>
      simp only [List.zip_cons_cons, List.map_cons]
      rw [ih bs (by simpa using h)]

theorem argminFirst_le_getD_of_ne (l : List ℚ) (hne : l ≠ []) (j : ℕ)
    (hj : j < l.length) : l.getD (argminFirst l) 0 ≤ l.getD j 0 := by
  cases l with
  | nil => exact absurd rfl hne
  | cons x xs => exact argminFirst_le_getD x xs j hj

/-- Claim C5.  For every candidate stride list (paired with its per-region
deviation lists in caller order, as `dev_vs_stride` stores them), the
selection in `MaldiStatus.optimize_strides` computes per candidate the mean
deviation over all reported regions as a single scalar and returns the stride
at `np.argmin` of those scalars: the selected index carries a minimal mean,
and every earlier candidate has a strictly larger mean — the first minimum in
the caller-supplied stride order wins exact ties. -/
theorem maldi_c5 (strides : List ℚ) (devs : List (List ℚ))
    (hlen : strides.length = devs.length) (hne : strides ≠ [])
    (hdev : ∀ dv ∈ devs, dv ≠ []) :
    ∃ i : ℕ, i < strides.length ∧
      optimizeStrideSelect (devVsStride strides devs) = strides.getD i 0 ∧
      (∀ j : ℕ, j < strides.length →
        meanQ (devs.getD i []) ≤ meanQ (devs.getD j [])) ∧
      (∀ j : ℕ, j < i → meanQ (devs.getD i []) < meanQ (devs.getD j [])) := by
  have hdne : devs ≠ [] := by
    intro h
    subst h
    simp only [List.length_nil] at hlen
    exact hne (List.length_eq_zero.mp hlen)
  have hmne : devs.map meanQ ≠ [] := by
    intro h
    exact hdne (by simpa using h)
  have hilt : argminFirst (devs.map meanQ) < devs.length := by
    have h := argminFirst_lt_length (devs.map meanQ) hmne
    rwa [List.length_map] at h
  refine ⟨argminFirst (devs.map meanQ), by rw [hlen]; exact hilt, ?_, ?_, ?_⟩
  · unfold optimizeStrideSelect devVsStride
    dsimp only
    rw [zip_map_snd meanQ strides devs hlen]
    rw [zip_getD strides devs _ 0 [] (by rw [hlen]; exact hilt) hilt]
  · intro j hj
    have hj2 : j < devs.length := by rw [← hlen]; exact hj
    have hle := argminFirst_le_getD_of_ne (devs.map meanQ) hmne j
      (by rw [List.length_map]; exact hj2)
    rw [map_getD meanQ devs _ 0 [] hilt, map_getD meanQ devs _ 0 [] hj2] at hle
    exact hle
  · intro j hj
    have hj2 : j < devs.length := lt_trans hj hilt
    have hstrict := argminFirst_strict_before (devs.map meanQ) j hj
    rw [map_getD meanQ devs _ 0 [] hilt, map_getD meanQ devs _ 0 [] hj2] at hstrict
    exact hstrict

/-- Claim C5, witness: for strides `[2, 1]` with per-region deviations
`[[4], [2]]`, the selection picks index 1 (stride `1`), the candidate with
the smaller mean deviation. -/
theorem maldi_c5_witness :
    ∃ i : ℕ, i < ([2, 1] : List ℚ).length ∧
      optimizeStrideSelect (devVsStride [2, 1] [[4], [2]]) = ([2, 1] : List ℚ).getD i 0 ∧
      (∀ j : ℕ, j < ([2, 1] : List ℚ).length →
        meanQ (([[4], [2]] : List (List ℚ)).getD i []) ≤
          meanQ (([[4], [2]] : List (List ℚ)).getD j [])) ∧
      (∀ j : ℕ, j < i →
        meanQ (([[4], [2]] : List (List ℚ)).getD i []) <
          meanQ (([[4], [2]] : List (List ℚ)).getD j [])) :=
  maldi_c5 [2, 1] [[4], [2]] rfl (by simp) (by simp)

/-! ### Claim C2: missing serpentines attribute -/

theorem pyattr_serpentines (sp : SSerp) : sp.pyattr attrSerpentines = none := by
  rfl

/-- Claim C2.  `SquaredSerpentine` stores its generated path only in
`movements` and never defines an attribute `serpentines`, so for every
Optimizer built over a non-empty serpentine list, every call to
`span_std_vs_stride` with a non-empty candidate stride list stops inside
`_sim_routine` with an `AttributeError` on `serpentines` — raised while
gathering movements, before any `Scheduler` is constructed — leaving the
deposition mesh exactly as `clear_deposition_mesh` reset it, with no
deposition simulated. -/
theorem maldi_c2 (cfg : BedCfg) (distf : ℚ × ℚ → ℚ × ℚ → ℚ)
    (devf : (ℤ → ℤ → ℚ) → List ℚ) (mts : ℚ) (serps : List SSerp)
    (dep : ℤ → ℤ → ℚ) (s : ℚ) (rest : List ℚ) (hne : serps ≠ []) :
    (∀ sp : SSerp, sp.pyattr attrSerpentines = none) ∧
    (spanRun cfg distf devf mts serps dep (s :: rest)).1 =
      some (SimError.attributeError attrSerpentines) ∧
    (spanRun cfg distf devf mts serps dep (s :: rest)).2.1 = clearDep dep := by
  obtain ⟨a, as, rfl⟩ : ∃ a as, serps = a :: as := by
    cases serps with
    | nil => exact absurd rfl hne
    | cons a as => exact ⟨a, as, rfl⟩
  have hgather : simRoutineGather ((a :: as).map (fun sp => setStride sp s)) =
      Except.error (SimError.attributeError attrSerpentines) := by
    show simRoutineGather (setStride a s :: as.map (fun sp => setStride sp s)) = _
    unfold simRoutineGather
    rw [pyattr_serpentines]
  refine ⟨fun sp => pyattr_serpentines sp, ?_, ?_⟩
  · simp only [spanRun]
    rw [hgather]
  · simp only [spanRun]
    rw [hgather]

/-- Claim C2, witness: a concrete sweep over one serpentine and the single
candidate stride `1` aborts with the `serpentines` attribute error and
returns the freshly cleared deposition mesh. -/
theorem maldi_c2_witness :
    (spanRun ⟨3, 3, 1, 1, fun _ _ => 1⟩ (fun _ _ => 0) (fun _ => []) (1 / 10)
        [⟨0, 0, 1, 1, 10, 0, 2, 1, 5, 100, 1, false, []⟩] (fun _ _ => 0) [1]).1 =
      some (SimError.attributeError attrSerpentines) ∧
    (spanRun ⟨3, 3, 1, 1, fun _ _ => 1⟩ (fun _ _ => 0) (fun _ => []) (1 / 10)
        [⟨0, 0, 1, 1, 10, 0, 2, 1, 5, 100, 1, false, []⟩] (fun _ _ => 0) [1]).2.1 =
      clearDep (fun _ _ => 0) := by
  have h := maldi_c2 ⟨3, 3, 1, 1, fun _ _ => 1⟩ (fun _ _ => 0) (fun _ => []) (1 / 10)
    [⟨0, 0, 1, 1, 10, 0, 2, 1, 5, 100, 1, false, []⟩] (fun _ _ => 0) 1 [] (by simp)
  exact ⟨h.2.1, h.2.2⟩
